import Mathlib

/-!
Verification development for the 12Bowl pickem scoring and standings engine.

The definitions below are a shallow embedding of the JavaScript source:
  * `GameLogic.calculatePickAccuracy`, `GameLogic.calculateWeeklyScores`,
    `GameLogic.determineWeeklyWinner`, `GameLogic.getSeasonStats` and
    `GameLogic.generateLeaderboard` from the game module;
  * `GameData.simulateGameResults` and `GameData.calculateTotalPoints`
    from the game module;
  * the winner computation of `fetchNFLGames` in `App.jsx`;
  * `Utils.percentage` from the utilities module;
  * the row update of `savePick` in the sheets function, and the
    selection-map update of `makePick` in `app.js`.

Modelling conventions:
  * JavaScript numbers appearing as scores and tiebreaker guesses are
    modelled as `Int`; derived percentages are modelled as `Rat`.
  * A JavaScript value that may be `null` or `undefined` is an `Option`.
  * JavaScript truthiness of a string field (`game.winner`,
    `playerPicks.games[id]`) is false exactly for `null`/`undefined` and
    the empty string; truthiness of a numeric field
    (`playerPicks.tiebreaker`) is false exactly for `null`/`undefined`
    and `0`.
  * Code that can throw a TypeError is modelled with an `Option` result,
    where `none` is the thrown exception.
  * `Array.prototype.sort` with a comparator derived from a key is, per
    the ECMAScript specification, a stable sort; it is modelled by
    stable insertion sort on the key (`jsSortKey` below).
  * `Math.random()` driven scores are passed as explicit arguments.
-/

/-- A game record, with the fields used by the game module
(`Config.SAMPLE_GAMES` entries and `generateSampleWeek`). -/
structure Game where
  id : Nat
  day : String
  time : String
  awayTeam : String
  homeTeam : String
  overUnder : Rat
  completed : Bool
  awayScore : Option Int
  homeScore : Option Int
  winner : Option String
  isMNF : Bool
deriving DecidableEq

/-- A pick record as stored in `App.picks[player_weekN]`: the `games`
field is the selections map from game id to team name (`none` models a
record where the `games` property is absent), and `tiebreaker` is the
numeric tiebreaker guess or `null`. -/
structure Pick where
  games : Option (List (Nat × String))
  tiebreaker : Option Int
deriving DecidableEq

/-- Truthiness of a JavaScript string-or-null value: `null`/`undefined`
and the empty string are falsy. -/
def strTruthy : Option String → Bool
  | none => false
  | some s => !(s == "")

/-- Property read `m[gid]` on a JavaScript object with numeric keys,
modelled as association-list lookup (object keys are unique). -/
def lookupSel (m : List (Nat × String)) (gid : Nat) : Option String :=
  match m with
  | [] => none
  | (k, v) :: rest => if k = gid then some v else lookupSel rest gid

/-- Result record of `GameLogic.calculatePickAccuracy`. -/
structure Accuracy where
  correct : Nat
  total : Nat
  percentage : Rat
deriving DecidableEq

/-- The `games.forEach` loop of `GameLogic.calculatePickAccuracy`,
threading the `correct` and `total` counters.  The guard is
`game.completed && game.winner && playerPicks.games[game.id]`; reading
`playerPicks.games[game.id]` throws a TypeError (modelled as `none`)
when the `games` property is absent, and the read is reached exactly
when `game.completed && game.winner` is truthy. -/
def accuracyFold (sel : Option (List (Nat × String))) :
    List Game → Nat × Nat → Option (Nat × Nat)
  | [], acc => some acc
  | g :: gs, acc =>
    if g.completed && strTruthy g.winner then
      match sel with
      | none => none
      | some m =>
        if strTruthy (lookupSel m g.id) then
          accuracyFold sel gs
            (if lookupSel m g.id == g.winner then acc.1 + 1 else acc.1, acc.2 + 1)
        else
          accuracyFold sel gs acc
    else
      accuracyFold sel gs acc

/-- `GameLogic.calculatePickAccuracy(playerPicks, games)`: counts
correct and total over the games, then attaches the percentage
`total > 0 ? (correct / total) * 100 : 0`. -/
def calculatePickAccuracy (playerPicks : Pick) (games : List Game) : Option Accuracy :=
  (accuracyFold playerPicks.games games (0, 0)).map (fun ct =>
    ⟨ct.1, ct.2, if ct.2 > 0 then ((ct.1 : Rat) / (ct.2 : Rat)) * 100 else 0⟩)

/-- Predicate: the loop of `calculatePickAccuracy` increments `total`
at game `g` (the game is completed, has a truthy winner, and the player
selections map holds a truthy entry for it). -/
def pickCounted (m : List (Nat × String)) (g : Game) : Bool :=
  g.completed && strTruthy g.winner && strTruthy (lookupSel m g.id)

/-- Predicate: the loop of `calculatePickAccuracy` increments `correct`
at game `g`. -/
def pickCorrect (m : List (Nat × String)) (g : Game) : Bool :=
  pickCounted m g && (lookupSel m g.id == g.winner)

/-- The weekly score record built by `GameLogic.calculateWeeklyScores`
for one player. -/
structure WeeklyScore where
  player : String
  correct : Nat
  total : Nat
  percentage : Rat
  tiebreaker : Option Int
deriving DecidableEq

/-- The JavaScript expression `playerPicks.tiebreaker || null`: a
falsy tiebreaker (`null` or `0`) becomes `null`. -/
def tbNorm : Option Int → Option Int
  | some t => if t = 0 then none else some t
  | none => none

/-- The per-player body of `GameLogic.calculateWeeklyScores`: with a
pick record, score it with `calculatePickAccuracy`; with no record,
return zero correct out of the number of completed games. -/
def weeklyScoreFor (player : String) (playerPicks : Option Pick) (games : List Game) :
    Option WeeklyScore :=
  match playerPicks with
  | some pp =>
    (calculatePickAccuracy pp games).map (fun a =>
      ⟨player, a.correct, a.total, a.percentage, tbNorm pp.tiebreaker⟩)
  | none =>
    some ⟨player, 0, (games.filter (fun g => g.completed)).length, 0, none⟩

/-- Lookup of `App.picks[player_weekN]` for a fixed week, modelled as
association-list lookup on the player name. -/
def lookupPick (picks : List (String × Pick)) (player : String) : Option Pick :=
  match picks with
  | [] => none
  | (k, v) :: rest => if k = player then some v else lookupPick rest player

/-- `GameLogic.calculateWeeklyScores(week, games)` over an explicit
player list and pick store (the source reads both from globals). -/
def calculateWeeklyScores (players : List String) (picks : List (String × Pick))
    (games : List Game) : Option (List WeeklyScore) :=
  players.mapM (fun p => weeklyScoreFor p (lookupPick picks p) games)

/-- The before-relation realised by `Array.prototype.sort` under a
comparator that compares the keys `k`: `a` may stay before `b` exactly
when `k a ≤ k b`. -/
def keyLE {α κ : Type} [LinearOrder κ] (k : α → κ) (a b : α) : Prop := k a ≤ k b

instance keyLEDecidable {α κ : Type} [LinearOrder κ] (k : α → κ) : DecidableRel (keyLE k) :=
  fun a b => inferInstanceAs (Decidable (k a ≤ k b))

/-- Model of `Array.prototype.sort` with a key-derived comparator: the
ECMAScript specification requires sort to be stable, and the unique
stable order for a key comparator is realised by stable insertion
sort. -/
def jsSortKey {α κ : Type} [LinearOrder κ] (k : α → κ) (l : List α) : List α :=
  l.insertionSort (keyLE k)

theorem jsSortKey_perm {α κ : Type} [LinearOrder κ] (k : α → κ) (l : List α) :
    (jsSortKey k l).Perm l :=
  List.perm_insertionSort (keyLE k) l

theorem jsSortKey_sorted {α κ : Type} [LinearOrder κ] (k : α → κ) (l : List α) :
    (jsSortKey k l).Sorted (keyLE k) := by
  haveI : IsTotal α (keyLE k) := ⟨fun a b => le_total (k a) (k b)⟩
  haveI : IsTrans α (keyLE k) := ⟨fun _ _ _ h1 h2 => le_trans h1 h2⟩
  exact List.sorted_insertionSort (keyLE k) l

theorem jsSortKey_head_le {α κ : Type} [LinearOrder κ] {k : α → κ} {l : List α}
    {t : α} {r : List α} (h : jsSortKey k l = t :: r) :
    ∀ x ∈ l, k t ≤ k x := by
  intro x hx
  have hmem : x ∈ t :: r := by
    rw [← h]
    exact ((jsSortKey_perm k l).mem_iff).mpr hx
  have hs : (t :: r).Sorted (keyLE k) := h ▸ jsSortKey_sorted k l
  rcases List.mem_cons.mp hmem with heq | hx2
  · exact le_of_eq (congrArg k heq.symm)
  · exact (List.sorted_cons.mp hs).1 x hx2

theorem filter_orderedInsert_key {α κ : Type} [LinearOrder κ] (k : α → κ) (c : κ) (x : α) :
    ∀ l : List α,
      (List.orderedInsert (keyLE k) x l).filter (fun a => decide (k a = c)) =
        (x :: l).filter (fun a => decide (k a = c))
  | [] => rfl
  | y :: ys => by
    by_cases hxy : keyLE k x y
    · simp [List.orderedInsert, hxy]
    · have hyx : k y < k x := lt_of_not_le hxy
      have ih := filter_orderedInsert_key k c x ys
      simp only [List.orderedInsert, if_neg hxy, List.filter_cons, ih]
      by_cases hx : k x = c
      · have hy : ¬ k y = c := by
          intro hc
          rw [hx] at hyx
          rw [hc] at hyx
          exact lt_irrefl c hyx
        simp [hx, hy]
      · by_cases hy : k y = c
        · simp [hx, hy]
        · simp [hx, hy]

/-- Stability of the sort model: for every key value `c`, the sorted
list restricted to elements whose key is `c` equals the input list
restricted the same way, so elements tied on the key keep their input
order. -/
theorem jsSortKey_filter_stable {α κ : Type} [LinearOrder κ] (k : α → κ) (c : κ) :
    ∀ l : List α,
      (jsSortKey k l).filter (fun a => decide (k a = c)) =
        l.filter (fun a => decide (k a = c))
  | [] => rfl
  | x :: xs => by
    have h1 : jsSortKey k (x :: xs) = List.orderedInsert (keyLE k) x (jsSortKey k xs) := rfl
    rw [h1, filter_orderedInsert_key k c x (jsSortKey k xs)]
    simp only [List.filter_cons, jsSortKey_filter_stable k c xs]

/-- `GameData.calculateTotalPoints(game)`: `null` unless the game is
completed with both scores non-null, otherwise the score sum. -/
def calculateTotalPoints (g : Game) : Option Int :=
  if g.completed then
    match g.awayScore, g.homeScore with
    | some a, some h => some (a + h)
    | _, _ => none
  else none

/-- Sort key of the first sort in `GameLogic.determineWeeklyWinner`:
the comparator `(a, b) => b.correct - a.correct` orders by `correct`
descending, so the ascending key is the negated correct count. -/
def correctKey (s : WeeklyScore) : Int := -(s.correct : Int)

/-- The tiebreaker distance assigned in `determineWeeklyWinner`: with
a truthy tiebreaker guess it is `Math.abs(tiebreaker - mnfTotal)`,
otherwise the fixed sentinel `999` (a guess of `0` is falsy and also
gets the sentinel). -/
def tbDiff (target : Int) (s : WeeklyScore) : Int :=
  match s.tiebreaker with
  | some t => if t = 0 then 999 else |t - target|
  | none => 999

/-- The object returned by `GameLogic.determineWeeklyWinner`: a single
`winner` score record, whether the tiebreaker was applied, the Monday
night total when it was, and the number of players tied at the top
score.  The source never returns more than the one `winner` record. -/
structure WinnerResult where
  winner : WeeklyScore
  isTiebreaker : Bool
  mnfTotal : Option Int
  tiedPlayers : Nat
deriving DecidableEq

/-- Tail of `determineWeeklyWinner` beginning after the top-score
filter: `winners` is the (sorted-order) list of players tied at the
top correct count.  When more than one remains and the Monday night
game is present, completed, and has a non-null total, the winners are
re-sorted by tiebreaker distance and the first is returned with
`isTiebreaker = true`; every other path returns the first winner with
`isTiebreaker = false`.  An empty `winners` list is impossible for the
caller; it is mapped to `none` (the source would throw). -/
def resolveWinners (winners : List WeeklyScore) (mnfGame : Option Game) :
    Option WinnerResult :=
  match winners with
  | [] => none
  | w :: ws =>
    if (w :: ws).length > 1 then
      match mnfGame with
      | some g =>
        if g.completed then
          match calculateTotalPoints g with
          | some mnfTotal =>
            match jsSortKey (tbDiff mnfTotal) (w :: ws) with
            | [] => none
            | w2 :: _ => some ⟨w2, true, some mnfTotal, (w :: ws).length⟩
          | none => some ⟨w, false, none, (w :: ws).length⟩
        else some ⟨w, false, none, (w :: ws).length⟩
      | none => some ⟨w, false, none, (w :: ws).length⟩
    else some ⟨w, false, none, (w :: ws).length⟩

/-- `GameLogic.determineWeeklyWinner(weeklyScores, mnfGame)`: sort the
score records by correct picks descending (stable), read the top
score from the first element (`none` models the throw on an empty
collection), keep all records tied at the top score, and resolve. -/
def determineWeeklyWinner (weeklyScores : List WeeklyScore) (mnfGame : Option Game) :
    Option WinnerResult :=
  match jsSortKey correctKey weeklyScores with
  | [] => none
  | t :: r =>
    resolveWinners ((t :: r).filter (fun p => p.correct == t.correct)) mnfGame

/-- The per-player totals accumulated by `GameLogic.getSeasonStats`
(the `bestWeek` and `worstWeek` trackers of the source are omitted;
they feed no ordering or totals). -/
structure SeasonAcc where
  totalCorrect : Nat
  totalPossible : Nat
  weeklyWins : Nat
deriving DecidableEq

/-- One iteration of the per-week loop body of `getSeasonStats` for a
fixed player: the weekly score for the player paired with whether the
weekly winner record names this player.  Nothing is accumulated when
the weekly `total` is zero (the `playerScore.total > 0` guard). -/
def applyWeekScore (st : SeasonAcc) (w : WeeklyScore × Bool) : SeasonAcc :=
  if w.1.total > 0 then
    ⟨st.totalCorrect + w.1.correct, st.totalPossible + w.1.total,
      st.weeklyWins + (if w.2 then 1 else 0)⟩
  else st

/-- The season accumulation of `getSeasonStats` for one player over the
weeks, starting from the zeroed stat record. -/
def seasonTotals (weeks : List (WeeklyScore × Bool)) : SeasonAcc :=
  weeks.foldl applyWeekScore ⟨0, 0, 0⟩

/-- The closing step of `getSeasonStats`: `averageAccuracy` is
`(totalCorrect / totalPossible) * 100` when `totalPossible > 0`, else
`0`. -/
def seasonAverageAccuracy (st : SeasonAcc) : Rat :=
  if st.totalPossible > 0 then ((st.totalCorrect : Rat) / (st.totalPossible : Rat)) * 100
  else 0

/-- `Utils.percentage(value, total)`: `0` when `total === 0`, else
`Math.round((value / total) * 100)` (round half toward positive
infinity, as `Math.round` does). -/
def percentage (value total : Rat) : Rat :=
  if total = 0 then 0 else ((round ((value / total) * 100) : Int) : Rat)

/-- A season stat record as sorted by `GameLogic.generateLeaderboard`
(only the two fields the comparator reads, plus the player name). -/
structure SeasonStat where
  player : String
  weeklyWins : Nat
  averageAccuracy : Rat
deriving DecidableEq

/-- Sort key of the `generateLeaderboard` comparator
`(a, b) => b.weeklyWins - a.weeklyWins` falling back to
`b.averageAccuracy - a.averageAccuracy`: lexicographic on weekly wins
descending, then average accuracy descending. -/
def lbKey (s : SeasonStat) : Lex (Int × Rat) :=
  toLex (-(s.weeklyWins : Int), -s.averageAccuracy)

/-- A leaderboard row built by `generateLeaderboard`: rank is the
sorted position plus one, `isLeader` marks the first row. -/
structure RankedStat where
  rank : Nat
  stat : SeasonStat
  isLeader : Bool
deriving DecidableEq

/-- `GameLogic.generateLeaderboard()` on an explicit stats list (the
source reads `Object.values(getSeasonStats())`): stable sort by the
comparator, then decorate each entry with its rank. -/
def generateLeaderboard (stats : List SeasonStat) : List RankedStat :=
  (jsSortKey lbKey stats).enum.map (fun p => ⟨p.1 + 1, p.2, p.1 == 0⟩)

/-- The winner computation of `fetchNFLGames` in `App.jsx`: `winner`
starts `null`; when the event is completed, the strictly higher score
sets it to that team, and a tied completed game leaves it `null`. -/
def ingestGameWinner (isCompleted : Bool) (homeAbbr awayAbbr : String)
    (homeScore awayScore : Int) : Option String :=
  if isCompleted then
    if homeScore > awayScore then some homeAbbr
    else if awayScore > homeScore then some awayAbbr
    else none
  else none

/-- The body of the `games.map` in `GameData.simulateGameResults`, with
the two `Math.random()` scores passed explicitly: an already completed
game is returned unchanged, otherwise the game is completed with the
given scores and `winner = awayScore > homeScore ? awayTeam :
homeTeam`. -/
def simulateGameResult (game : Game) (awayScore homeScore : Int) : Game :=
  if game.completed then game
  else
    { game with
      completed := true
      awayScore := some awayScore
      homeScore := some homeScore
      winner := some (if awayScore > homeScore then game.awayTeam else game.homeTeam) }

/-- The update-existing-row branch of `savePick` in the sheets
function: pad the row to 26 columns, write the team into the game
column `2 + gameId - 1` when that column index is below 26, write the
tiebreaker into column 24 when truthy, and the timestamp into column
25. -/
def savePickUpdateRow (row : List String) (gameId : Nat) (teamPick : String)
    (tiebreaker : Option Int) (timestamp : String) : List String :=
  let padded := row ++ List.replicate (26 - row.length) ("")
  let gameColumn := 2 + gameId - 1
  let r1 := if gameColumn < 26 then padded.set gameColumn teamPick else padded
  let r2 :=
    match tiebreaker with
    | some t => if t = 0 then r1 else r1.set 24 (toString t)
    | none => r1
  r2.set 25 timestamp

/-- JavaScript property write `m[gid] = team` on the selections map:
an existing key is updated in place, a new key is appended. -/
def setSel : List (Nat × String) → Nat → String → List (Nat × String)
  | [], gid, team => [(gid, team)]
  | (k, v) :: rest, gid, team =>
    if k = gid then (k, team) :: rest else (k, v) :: setSel rest gid team

/-- The pick-record update of `makePick(gameId, team)` in `app.js`: a
missing record is initialised to `{games: {}, tiebreaker: null}` and
then receives the selection; an existing record gets only its `games`
map updated (`none` models the TypeError when the `games` property is
absent). -/
def makePickRecord (existing : Option Pick) (gameId : Nat) (team : String) :
    Option Pick :=
  match existing with
  | none => some ⟨some [(gameId, team)], none⟩
  | some p =>
    match p.games with
    | none => none
    | some m => some ⟨some (setSel m gameId team), p.tiebreaker⟩

theorem accuracyFold_some (m : List (Nat × String)) :
    ∀ (gs : List Game) (c t : Nat),
      accuracyFold (some m) gs (c, t) =
        some (c + gs.countP (pickCorrect m), t + gs.countP (pickCounted m))
  | [], c, t => by simp [accuracyFold]
  | g :: gs, c, t => by
    have ih := accuracyFold_some m gs
    by_cases h1 : (g.completed && strTruthy g.winner) = true
    · by_cases h2 : strTruthy (lookupSel m g.id) = true
      · have hc : pickCounted m g = true := by
          simp only [pickCounted, h1, h2, Bool.and_self]
        by_cases h3 : (lookupSel m g.id == g.winner) = true
        · have hcc : pickCorrect m g = true := by
            simp only [pickCorrect, hc, h3, Bool.and_self]
          simp [accuracyFold, h1, h2, h3, ih, List.countP_cons, hc, hcc]
          omega
        · have hcc : pickCorrect m g = false := by
            simp only [pickCorrect, hc, Bool.true_and]
            exact Bool.eq_false_iff.mpr (fun hx => h3 hx)
          simp [accuracyFold, h1, h2, h3, ih, List.countP_cons, hc, hcc]
          omega
      · have hc : pickCounted m g = false := by
          simp only [pickCounted]
          exact Bool.eq_false_iff.mpr (fun hx => h2 (Bool.and_elim_right hx))
        have hcc : pickCorrect m g = false := by
          simp only [pickCorrect, hc, Bool.false_and]
        simp [accuracyFold, h1, h2, ih, List.countP_cons, hc, hcc]
    · have hc : pickCounted m g = false := by
        simp only [pickCounted]
        exact Bool.eq_false_iff.mpr (fun hx => h1 (Bool.and_elim_left hx))
      have hcc : pickCorrect m g = false := by
        simp only [pickCorrect, hc, Bool.false_and]
      simp [accuracyFold, h1, ih, List.countP_cons, hc, hcc]

/-- A completed sample game with a recorded winner, in the shape of the
`Config.SAMPLE_GAMES` data. -/
def exGameDone : Game :=
  ⟨1, "Thursday", "8:20 PM ET", "Baltimore", "Kansas City", 46.5, true,
    some 20, some 27, some ("Kansas City"), false⟩

/-- A pending sample game (not completed, no scores, no winner). -/
def exGamePending : Game :=
  ⟨2, "Sunday", "1:00 PM ET", "Atlanta", "Pittsburgh", 42, false, none, none, none, false⟩

/-- Claim C1 counterexample.  The claim says the scoring engine
increments `total` for every completed game even when the player made
no pick for it, and that a pick with no selections scores
`total = completedCount`.  On the code, a pick record whose selections
map is present but empty yields `total = 0` against one completed
game, not `1`: a game the player did not pick is excluded from
`total`, not counted as incorrect. -/
theorem pickAccuracy_unpicked_game_not_counted :
    calculatePickAccuracy ⟨some [], none⟩ [exGameDone] = some ⟨0, 0, 0⟩ ∧
      ([exGameDone].filter (fun g => g.completed)).length = 1 ∧ (0 : Nat) ≠ 1 :=
  ⟨rfl, rfl, by decide⟩

/-- Claim C1, amended.  `calculatePickAccuracy` increments `total`
exactly for the games that are completed, have a truthy winner, and
for which the player holds a truthy selection; `correct` additionally
requires the selection to equal the winner.  A player with no pick
record at all is scored by `calculateWeeklyScores` as `correct = 0`
and `total` = the number of completed games. -/
theorem pickAccuracy_counts_only_picked_games :
    ∀ (m : List (Nat × String)) (tb : Option Int) (gs : List Game) (p : String),
      (∃ a, calculatePickAccuracy ⟨some m, tb⟩ gs = some a ∧
          a.correct = gs.countP (pickCorrect m) ∧
          a.total = gs.countP (pickCounted m)) ∧
      weeklyScoreFor p none gs =
        some ⟨p, 0, (gs.filter (fun g => g.completed)).length, 0, none⟩ := by
  intro m tb gs p
  constructor
  · have h := accuracyFold_some m gs 0 0
    rw [Nat.zero_add, Nat.zero_add] at h
    refine ⟨⟨gs.countP (pickCorrect m), gs.countP (pickCounted m),
      if 0 < gs.countP (pickCounted m) then
        ((gs.countP (pickCorrect m) : Rat) / (gs.countP (pickCounted m) : Rat)) * 100
      else 0⟩, ?_, rfl, rfl⟩
    simp only [calculatePickAccuracy]
    rw [h]
    rfl
  · rfl

/-- Claim C5 counterexample.  The claim says scoring never throws,
including for a pick record with an absent selections map.  On the
code, `calculatePickAccuracy` reads `playerPicks.games[game.id]` as
soon as one completed game with a winner is scored, which is a
TypeError when the `games` property is absent (modelled as `none`). -/
theorem pickAccuracy_absent_selections_throws :
    calculatePickAccuracy ⟨none, some 40⟩ [exGameDone] = none ∧
      exGameDone.completed = true :=
  ⟨rfl, rfl⟩

/-- Claim C5, amended.  For every pick record that has a selections
map (possibly empty, possibly mentioning unknown game ids or invalid
team names), scoring is total: it returns a result for every game
list, with `correct ≤ total` and `total` at most the number of
completed games.  Purity and determinism are inherent to the model:
the embedding is a function of its arguments. -/
theorem pickAccuracy_total_with_selections_map :
    ∀ (m : List (Nat × String)) (tb : Option Int) (gs : List Game),
      ∃ a, calculatePickAccuracy ⟨some m, tb⟩ gs = some a ∧
        a.correct ≤ a.total ∧
        a.total ≤ (gs.filter (fun g => g.completed)).length := by
  intro m tb gs
  have h := accuracyFold_some m gs 0 0
  rw [Nat.zero_add, Nat.zero_add] at h
  refine ⟨⟨gs.countP (pickCorrect m), gs.countP (pickCounted m),
    if 0 < gs.countP (pickCounted m) then
      ((gs.countP (pickCorrect m) : Rat) / (gs.countP (pickCounted m) : Rat)) * 100
    else 0⟩, ?_, ?_, ?_⟩
  · simp only [calculatePickAccuracy]
    rw [h]
    rfl
  · exact List.countP_mono_left (fun g _ hg => by
      simp only [pickCorrect] at hg
      exact Bool.and_elim_left hg)
  · rw [← List.countP_eq_length_filter]
    exact List.countP_mono_left (fun g _ hg => by
      simp only [pickCounted] at hg
      exact Bool.and_elim_left (Bool.and_elim_left hg))

/-- Claim C8.  When the aggregated `totalPossible` is zero the stored
`averageAccuracy` is the literal `0`, and `Utils.percentage` returns
the literal `0` when its `total` argument is zero: the division is
reached only under a positivity guard, so the result is a defined
zero, never an undefined value. -/
theorem winPercentage_zero_guarded :
    ∀ (c w : Nat) (v : Rat), seasonAverageAccuracy ⟨c, 0, w⟩ = 0 ∧ percentage v 0 = 0 := by
  intro c w v
  exact ⟨by simp [seasonAverageAccuracy], by simp [percentage]⟩

/-- Claim C6 counterexample.  The claim says `winner` is non-null iff
`completed`, and is determined strictly by the higher score.  On a
tied final score the simulation path completes the game and names the
home team winner (no strictly higher score exists), while the
ingestion path of `fetchNFLGames` leaves `winner` null on a completed
game, so the iff fails. -/
theorem gameWinner_tie_cex :
    (simulateGameResult exGamePending 20 20).completed = true ∧
      (simulateGameResult exGamePending 20 20).awayScore = some 20 ∧
      (simulateGameResult exGamePending 20 20).homeScore = some 20 ∧
      (simulateGameResult exGamePending 20 20).winner = some exGamePending.homeTeam ∧
      ingestGameWinner true ("Pittsburgh") ("Atlanta") 20 20 = none :=
  ⟨rfl, rfl, rfl, rfl, rfl⟩

/-- Claim C6, amended.  Simulation completes a pending game with
`winner = awayTeam` when `awayScore > homeScore` and `homeTeam`
otherwise, so the home team also wins exact ties; ingestion sets
`winner` only for a completed game and only to the strictly higher
scorer, leaving `winner` null on a completed tie.  So `winner`
non-null implies completed and membership in the two teams, but a
completed ingested game can have a null winner. -/
theorem gameWinner_determination :
    (∀ (g : Game) (as hs : Int), g.completed = false →
      (simulateGameResult g as hs).completed = true ∧
        (simulateGameResult g as hs).awayScore = some as ∧
        (simulateGameResult g as hs).homeScore = some hs ∧
        (simulateGameResult g as hs).winner =
          some (if as > hs then g.awayTeam else g.homeTeam)) ∧
    (∀ (c : Bool) (h a : String) (hs as : Int) (w : String),
      ingestGameWinner c h a hs as = some w →
      c = true ∧ ((w = h ∧ as < hs) ∨ (w = a ∧ hs < as))) ∧
    (∀ (h a : String) (hs as : Int), hs ≠ as →
      (ingestGameWinner true h a hs as).isSome = true) := by
  refine ⟨?_, ?_, ?_⟩
  · intro g as hs hg
    simp [simulateGameResult, hg]
  · intro c h a hs as w hw
    cases c with
    | false => simp [ingestGameWinner] at hw
    | true =>
      refine ⟨rfl, ?_⟩
      by_cases h1 : hs > as
      · simp only [ingestGameWinner, if_pos h1, if_true, Option.some.injEq] at hw
        exact Or.inl ⟨hw.symm, h1⟩
      · by_cases h2 : as > hs
        · simp only [ingestGameWinner, if_neg h1, if_pos h2, if_true,
            Option.some.injEq] at hw
          exact Or.inr ⟨hw.symm, h2⟩
        · simp [ingestGameWinner, h1, h2] at hw
  · intro h a hs as hne
    rcases lt_or_gt_of_ne hne with h1 | h1
    · simp [ingestGameWinner, h1, not_lt_of_gt h1]
    · simp [ingestGameWinner, h1]

/-- Witness for the amended claim C6 theorem at concrete inputs. -/
theorem gameWinner_determination_witness :
    ((simulateGameResult exGamePending 24 17).completed = true ∧
      (simulateGameResult exGamePending 24 17).awayScore = some 24 ∧
      (simulateGameResult exGamePending 24 17).homeScore = some 17 ∧
      (simulateGameResult exGamePending 24 17).winner =
        some (if (24 : Int) > 17 then exGamePending.awayTeam else exGamePending.homeTeam)) ∧
    ((("H") = ("H") ∧ (17 : Int) < 24) ∨ (("H") = ("A") ∧ (24 : Int) < 17)) ∧
    (ingestGameWinner true ("H") ("A") 24 17).isSome = true := by
  have h1 := gameWinner_determination.1 exGamePending 24 17 rfl
  have h2 := gameWinner_determination.2.1 true ("H") ("A") 24 17 ("H") rfl
  have h3 := gameWinner_determination.2.2 ("H") ("A") 24 17 (by decide)
  exact ⟨h1, h2.2, h3⟩

/-- The two-week example of the spec: player X scores 8 of 10 then
9 of 11, never flagged weekly winner. -/
def exSeasonWeeks : List (WeeklyScore × Bool) :=
  [(⟨"X", 8, 10, 0, none⟩, false), (⟨"X", 9, 11, 0, none⟩, false)]

theorem foldl_applyWeekScore :
    ∀ (ws : List (WeeklyScore × Bool)) (st : SeasonAcc),
      (∀ w ∈ ws, w.1.total = 0 → w.1.correct = 0) →
      (ws.foldl applyWeekScore st).totalCorrect =
          st.totalCorrect + (ws.map (fun w => w.1.correct)).sum ∧
        (ws.foldl applyWeekScore st).totalPossible =
          st.totalPossible + (ws.map (fun w => w.1.total)).sum
  | [], st, _ => by simp
  | w :: ws, st, h => by
    have ih := foldl_applyWeekScore ws (applyWeekScore st w)
      (fun x hx hx0 => h x (List.mem_cons_of_mem w hx) hx0)
    by_cases hw : w.1.total > 0
    · constructor
      · rw [List.foldl_cons, ih.1]
        simp [applyWeekScore, hw]
        omega
      · rw [List.foldl_cons, ih.2]
        simp [applyWeekScore, hw]
        omega
    · have hw0 : w.1.total = 0 := by omega
      have hwc : w.1.correct = 0 := h w (List.mem_cons_self w ws) hw0
      constructor
      · rw [List.foldl_cons, ih.1]
        simp [applyWeekScore, hw, hwc]
      · rw [List.foldl_cons, ih.2]
        simp [applyWeekScore, hw, hw0]

/-- Claim C7 counterexample.  The claim puts the resulting
`winPercentage` at approximately `0.8095` for the 8/10 then 9/11
example; the code stores `averageAccuracy = (17 / 21) * 100`, which
is greater than 80, not a value near 0.8095. -/
theorem seasonStats_percentage_scale_cex :
    (seasonTotals exSeasonWeeks).totalCorrect = 17 ∧
      (seasonTotals exSeasonWeeks).totalPossible = 21 ∧
      seasonAverageAccuracy (seasonTotals exSeasonWeeks) = 1700 / 21 ∧
      (80 : Rat) < seasonAverageAccuracy (seasonTotals exSeasonWeeks) := by
  have hst : seasonTotals exSeasonWeeks = ⟨17, 21, 0⟩ := rfl
  refine ⟨rfl, rfl, ?_, ?_⟩
  · rw [hst]
    norm_num [seasonAverageAccuracy]
  · rw [hst]
    norm_num [seasonAverageAccuracy]

/-- Claim C7, amended.  Season aggregation is additive: over any week
sequence in which a zero-total week carries zero correct picks (true
of every score the engine produces), the accumulated `totalPossible`
is the sum of the weekly totals and `totalCorrect` the sum of the
weekly correct counts; on the 8/10 then 9/11 example the stored
average accuracy is `(17 / 21) * 100 = 1700 / 21`, about `80.95`
(the fraction `17 / 21` expressed as a percentage). -/
theorem seasonTotals_sums (ws : List (WeeklyScore × Bool))
    (h : ∀ w ∈ ws, w.1.total = 0 → w.1.correct = 0) :
    (seasonTotals ws).totalCorrect = (ws.map (fun w => w.1.correct)).sum ∧
      (seasonTotals ws).totalPossible = (ws.map (fun w => w.1.total)).sum ∧
      seasonAverageAccuracy (seasonTotals exSeasonWeeks) = 1700 / 21 := by
  have hf := foldl_applyWeekScore ws ⟨0, 0, 0⟩ h
  refine ⟨?_, ?_, ?_⟩
  · rw [seasonTotals, hf.1]
    simp
  · rw [seasonTotals, hf.2]
    simp
  · have hst : seasonTotals exSeasonWeeks = ⟨17, 21, 0⟩ := rfl
    rw [hst]
    norm_num [seasonAverageAccuracy]

/-- Witness for the amended claim C7 theorem at the two-week
example. -/
theorem seasonTotals_sums_witness :
    (seasonTotals exSeasonWeeks).totalCorrect =
        (exSeasonWeeks.map (fun w => w.1.correct)).sum ∧
      (seasonTotals exSeasonWeeks).totalPossible =
        (exSeasonWeeks.map (fun w => w.1.total)).sum ∧
      seasonAverageAccuracy (seasonTotals exSeasonWeeks) = 1700 / 21 :=
  seasonTotals_sums exSeasonWeeks (by decide)

theorem lookupSel_setSel (team : String) (gid g2 : Nat) (hne : g2 ≠ gid) :
    ∀ m : List (Nat × String), lookupSel (setSel m gid team) g2 = lookupSel m g2
  | [] => by
    simp only [setSel, lookupSel]
    rw [if_neg (fun hEq => hne hEq.symm)]
  | (k, v) :: rest => by
    by_cases hk : k = gid
    · subst hk
      simp only [setSel, if_pos rfl, lookupSel]
      have hk2 : ¬ (k = g2) := fun hEq => hne hEq.symm
      rw [if_neg hk2, if_neg hk2]
    · have ih := lookupSel_setSel team gid g2 hne rest
      simp only [setSel, if_neg hk, lookupSel, ih]

/-- Claim C9.  Saving a pick merges per game rather than replacing the
record.  For the sheets `savePick` update branch, writing game `gid`
of an existing row touches only the game column `2 + gid - 1`, the
tiebreaker column 24 and the timestamp column 25, so the column of
every other game id in the schema range 1..20 keeps the value of the
(padded) existing row, and padding itself preserves every index
within the original row.  For `makePick`, updating one game id of an
existing record rewrites only that key of the selections map and
keeps the tiebreaker, so lookups of every other game id are
unchanged. -/
theorem savePick_merge_preserves_others
    (row : List String) (gid g2 : Nat) (tp : String) (tb : Option Int) (ts : String)
    (p : Pick) (m : List (Nat × String)) (team : String)
    (hg1 : 1 ≤ gid) (hg2 : 1 ≤ g2) (hg3 : g2 ≤ 20) (hne : g2 ≠ gid) :
    ((savePickUpdateRow row gid tp tb ts)[g2 + 1]? =
        (row ++ List.replicate (26 - row.length) (""))[g2 + 1]? ∧
      (g2 + 1 < row.length →
        (row ++ List.replicate (26 - row.length) (""))[g2 + 1]? = row[g2 + 1]?)) ∧
    (p.games = some m →
      makePickRecord (some p) gid team = some ⟨some (setSel m gid team), p.tiebreaker⟩ ∧
      lookupSel (setSel m gid team) g2 = lookupSel m g2) := by
  refine ⟨⟨?_, ?_⟩, ?_⟩
  · have hcol : 2 + gid - 1 = gid + 1 := by omega
    cases tb with
    | none =>
      simp only [savePickUpdateRow, hcol]
      rw [List.getElem?_set_ne (by omega : (25 : Nat) ≠ g2 + 1)]
      by_cases hlt : gid + 1 < 26
      · rw [if_pos hlt, List.getElem?_set_ne (by omega : gid + 1 ≠ g2 + 1)]
      · rw [if_neg hlt]
    | some t =>
      simp only [savePickUpdateRow, hcol]
      rw [List.getElem?_set_ne (by omega : (25 : Nat) ≠ g2 + 1)]
      by_cases ht : t = 0
      · rw [if_pos ht]
        by_cases hlt : gid + 1 < 26
        · rw [if_pos hlt, List.getElem?_set_ne (by omega : gid + 1 ≠ g2 + 1)]
        · rw [if_neg hlt]
      · rw [if_neg ht, List.getElem?_set_ne (by omega : (24 : Nat) ≠ g2 + 1)]
        by_cases hlt : gid + 1 < 26
        · rw [if_pos hlt, List.getElem?_set_ne (by omega : gid + 1 ≠ g2 + 1)]
        · rw [if_neg hlt]
  · intro hlen
    exact List.getElem?_append_left hlen
  · intro hm
    refine ⟨?_, lookupSel_setSel team gid g2 hne m⟩
    simp only [makePickRecord, hm]

/-- Witness for the claim C9 theorem at a concrete four-column row and
a concrete two-entry selections map. -/
theorem savePick_merge_preserves_others_witness :
    (((savePickUpdateRow ["A_Week1", "A", "T1", "T2"] 2 ("NEW") (some 33) ("ts"))[1 + 1]? =
        (["A_Week1", "A", "T1", "T2"] ++
          List.replicate (26 - (["A_Week1", "A", "T1", "T2"] : List String).length) (""))[1 + 1]? ∧
      (1 + 1 < (["A_Week1", "A", "T1", "T2"] : List String).length →
        (["A_Week1", "A", "T1", "T2"] ++
          List.replicate (26 - (["A_Week1", "A", "T1", "T2"] : List String).length)
            (""))[1 + 1]? = (["A_Week1", "A", "T1", "T2"] : List String)[1 + 1]?)) ∧
    ((Pick.mk (some [(2, "X"), (1, "Y")]) (some 40)).games = some [(2, "X"), (1, "Y")] →
      makePickRecord (some (Pick.mk (some [(2, "X"), (1, "Y")]) (some 40))) 2 ("Z") =
        some ⟨some (setSel [(2, "X"), (1, "Y")] 2 ("Z")),
          (Pick.mk (some [(2, "X"), (1, "Y")]) (some 40)).tiebreaker⟩ ∧
      lookupSel (setSel [(2, "X"), (1, "Y")] 2 ("Z")) 1 =
        lookupSel [(2, "X"), (1, "Y")] 1)) :=
  savePick_merge_preserves_others ["A_Week1", "A", "T1", "T2"] 2 1 ("NEW") (some 33) ("ts")
    (Pick.mk (some [(2, "X"), (1, "Y")]) (some 40)) [(2, "X"), (1, "Y")] ("Z")
    (by decide) (by decide) (by decide) (by decide)

theorem two_le_length_of_ne {α : Type} {a b : α} :
    ∀ {l : List α}, a ∈ l → b ∈ l → a ≠ b → 2 ≤ l.length := by
  intro l ha hb hne
  match l with
  | [] => exact absurd ha (List.not_mem_nil a)
  | [x] =>
    rw [List.mem_singleton] at ha hb
    exact absurd (ha.trans hb.symm) hne
  | x :: y :: t =>
    simp only [List.length_cons]
    omega

theorem winners_setup (scores : List WeeklyScore) (M : Nat)
    (h1 : ∀ s ∈ scores, s.correct ≤ M)
    (h2 : 0 < scores.countP (fun s => s.correct == M)) :
    ∃ t r, jsSortKey correctKey scores = t :: r ∧ t.correct = M ∧
      ((t :: r).filter (fun p => p.correct == t.correct)).length =
        scores.countP (fun s => s.correct == M) ∧
      (∀ x ∈ (t :: r).filter (fun p => p.correct == t.correct),
        x ∈ scores ∧ x.correct = M) ∧
      (∀ s ∈ scores, s.correct = M →
        s ∈ (t :: r).filter (fun p => p.correct == t.correct)) := by
  obtain ⟨s0, hs0mem, hs0p⟩ := List.countP_pos_iff.mp h2
  have hs0 : s0.correct = M := by simpa using hs0p
  cases hsort : jsSortKey correctKey scores with
  | nil =>
    exfalso
    have hmem : s0 ∈ jsSortKey correctKey scores :=
      (jsSortKey_perm correctKey scores).symm.mem_iff.mp hs0mem
    rw [hsort] at hmem
    exact List.not_mem_nil s0 hmem
  | cons t r =>
    have hperm : (t :: r).Perm scores := hsort ▸ jsSortKey_perm correctKey scores
    have htmem : t ∈ scores := hperm.mem_iff.mp (List.mem_cons_self t r)
    have hle : t.correct ≤ M := h1 t htmem
    have hge : M ≤ t.correct := by
      have hh := jsSortKey_head_le hsort s0 hs0mem
      simp only [correctKey, neg_le_neg_iff, Nat.cast_le] at hh
      omega
    have htM : t.correct = M := le_antisymm hle hge
    refine ⟨t, r, rfl, htM, ?_, ?_, ?_⟩
    · have hcp : ((t :: r).filter (fun p => p.correct == t.correct)).length =
          (t :: r).countP (fun p => p.correct == t.correct) :=
        (List.countP_eq_length_filter _ _).symm
      rw [hcp, htM]
      exact hperm.countP_eq _
    · intro x hx
      have hx2 := List.mem_filter.mp hx
      refine ⟨hperm.mem_iff.mp hx2.1, ?_⟩
      have := hx2.2
      simp only [beq_iff_eq] at this
      rw [this, htM]
    · intro s hsmem hsM
      refine List.mem_filter.mpr ⟨hperm.mem_iff.mpr hsmem, ?_⟩
      simp only [beq_iff_eq]
      rw [hsM, htM]

theorem resolveWinners_spec (w : WeeklyScore) (ws : List WeeklyScore) (mnf : Option Game) :
    ∃ r, resolveWinners (w :: ws) mnf = some r ∧ r.winner ∈ w :: ws ∧
      r.tiedPlayers = (w :: ws).length := by
  by_cases hlen : (w :: ws).length > 1
  · have hws : ¬ ws = [] := by
      intro hEq
      rw [hEq] at hlen
      simp at hlen
    cases mnf with
    | none =>
      refine ⟨⟨w, false, none, (w :: ws).length⟩, ?_, List.mem_cons_self w ws, rfl⟩
      simp [resolveWinners, hlen, hws]
    | some g =>
      by_cases hc : g.completed
      · cases htp : calculateTotalPoints g with
        | none =>
          refine ⟨⟨w, false, none, (w :: ws).length⟩, ?_, List.mem_cons_self w ws, rfl⟩
          simp [resolveWinners, hlen, hws, hc, htp]
        | some T =>
          cases hs : jsSortKey (tbDiff T) (w :: ws) with
          | nil =>
            exfalso
            have hlen0 := (jsSortKey_perm (tbDiff T) (w :: ws)).length_eq
            rw [hs] at hlen0
            simp at hlen0
          | cons w2 rest =>
            have hw2 : w2 ∈ w :: ws := by
              have hmem : w2 ∈ jsSortKey (tbDiff T) (w :: ws) := by
                rw [hs]
                exact List.mem_cons_self w2 rest
              exact (jsSortKey_perm (tbDiff T) (w :: ws)).mem_iff.mp hmem
            refine ⟨⟨w2, true, some T, (w :: ws).length⟩, ?_, hw2, rfl⟩
            simp [resolveWinners, hlen, hws, hc, htp, hs]
      · refine ⟨⟨w, false, none, (w :: ws).length⟩, ?_, List.mem_cons_self w ws, rfl⟩
        simp [resolveWinners, hlen, hws, hc]
  · have hws : ws = [] := by
      cases ws with
      | nil => rfl
      | cons a t =>
        exfalso
        simp only [List.length_cons] at hlen
        omega
    subst hws
    refine ⟨⟨w, false, none, [w].length⟩, ?_, List.mem_cons_self w [], rfl⟩
    simp [resolveWinners]

/-- The Monday night tiebreaker game of the running examples:
completed, away 20, home 25, total 45. -/
def exMnf : Game :=
  ⟨15, "Monday", "8:15 PM ET", "Philadelphia", "Atlanta", 49.5, true,
    some 20, some 25, some ("Atlanta"), true⟩

/-- Tied player with guess 50 (distance 5 from 45). -/
def exScoreA : WeeklyScore := ⟨"A", 10, 14, 0, some 50⟩

/-- Tied player with guess 40 (distance 5 from 45). -/
def exScoreB : WeeklyScore := ⟨"B", 10, 14, 0, some 40⟩

/-- Tied player with no tiebreaker guess. -/
def exScoreC : WeeklyScore := ⟨"C", 10, 14, 0, none⟩

/-- Tied player with the wild guess 2000 (distance 1955 from 45). -/
def exScoreD : WeeklyScore := ⟨"D", 10, 14, 0, some 2000⟩

/-- Sole top scorer with 11 correct. -/
def exScoreE : WeeklyScore := ⟨"E", 11, 14, 0, some 44⟩

/-- Claim C4.  When exactly one player holds the maximum correct
count, `determineWeeklyWinner` returns exactly that player with the
tiebreaker unused, whatever the Monday night game argument is. -/
theorem determineWeeklyWinner_unique_max (scores : List WeeklyScore) (mnf : Option Game)
    (M : Nat) (h1 : ∀ s ∈ scores, s.correct ≤ M)
    (h2 : scores.countP (fun s => s.correct == M) = 1) :
    ∃ r, determineWeeklyWinner scores mnf = some r ∧ r.isTiebreaker = false ∧
      r.winner ∈ scores ∧ r.winner.correct = M ∧
      (∀ s ∈ scores, s.correct = M → s = r.winner) ∧ r.tiedPlayers = 1 := by
  obtain ⟨t, rr, hsort, htM, hlenf, hmemf, hmemb⟩ :=
    winners_setup scores M h1 (by omega)
  have hlen1 : ((t :: rr).filter (fun p => p.correct == t.correct)).length = 1 :=
    hlenf.trans h2
  obtain ⟨w, hw⟩ := List.length_eq_one.mp hlen1
  have hr : determineWeeklyWinner scores mnf =
      resolveWinners ((t :: rr).filter (fun p => p.correct == t.correct)) mnf := by
    simp only [determineWeeklyWinner, hsort]
  refine ⟨⟨w, false, none, 1⟩, ?_, rfl, ?_, ?_, ?_, rfl⟩
  · rw [hr, hw]
    simp [resolveWinners]
  · exact (hmemf w (by rw [hw]; exact List.mem_singleton.mpr rfl)).1
  · exact (hmemf w (by rw [hw]; exact List.mem_singleton.mpr rfl)).2
  · intro s hsmem hsM
    have hsW := hmemb s hsmem hsM
    rw [hw] at hsW
    exact List.mem_singleton.mp hsW

/-- Witness for the claim C4 theorem: E with 11 correct is the sole
maximum over A and B at 10. -/
theorem determineWeeklyWinner_unique_max_witness :
    ∃ r, determineWeeklyWinner [exScoreE, exScoreA, exScoreB] (some exMnf) = some r ∧
      r.isTiebreaker = false ∧ r.winner ∈ [exScoreE, exScoreA, exScoreB] ∧
      r.winner.correct = 11 ∧
      (∀ s ∈ [exScoreE, exScoreA, exScoreB], s.correct = 11 → s = r.winner) ∧
      r.tiedPlayers = 1 :=
  determineWeeklyWinner_unique_max [exScoreE, exScoreA, exScoreB] (some exMnf) 11
    (by decide) (by decide)

/-- Claim C2 counterexample.  A and B are tied at 10 correct and their
tiebreaker guesses sit at the same distance 5 from the Monday night
total 45, yet the resolver returns the single record A as `winner`
(reporting only a count of tied players), not both tied players. -/
theorem weeklyWinner_exact_tie_single_cex :
    determineWeeklyWinner [exScoreA, exScoreB] (some exMnf) =
        some ⟨exScoreA, true, some 45, 2⟩ ∧
      exScoreB.correct = exScoreA.correct ∧
      tbDiff 45 exScoreB = tbDiff 45 exScoreA ∧
      exScoreB ≠ exScoreA := by
  refine ⟨by decide, by decide, by decide, by decide⟩

/-- Claim C2, amended.  When two or more players are tied at the
maximum correct count, `determineWeeklyWinner` returns a single
`winner` drawn from the tied players together with `tiedPlayers`
reporting how many players were tied; the full set of tied co-winners
is not returned, whatever the tiebreaker game state. -/
theorem determineWeeklyWinner_tie_single_winner (scores : List WeeklyScore)
    (mnf : Option Game) (M : Nat)
    (h1 : ∀ s ∈ scores, s.correct ≤ M)
    (h2 : 2 ≤ scores.countP (fun s => s.correct == M)) :
    ∃ r, determineWeeklyWinner scores mnf = some r ∧ r.winner ∈ scores ∧
      r.winner.correct = M ∧
      r.tiedPlayers = scores.countP (fun s => s.correct == M) ∧
      2 ≤ r.tiedPlayers := by
  obtain ⟨t, rr, hsort, htM, hlenf, hmemf, hmemb⟩ :=
    winners_setup scores M h1 (by omega)
  have hr : determineWeeklyWinner scores mnf =
      resolveWinners ((t :: rr).filter (fun p => p.correct == t.correct)) mnf := by
    simp only [determineWeeklyWinner, hsort]
  cases hWc : (t :: rr).filter (fun p => p.correct == t.correct) with
  | nil =>
    exfalso
    rw [hWc] at hlenf
    simp at hlenf
    omega
  | cons w ws =>
    obtain ⟨r0, hres, hmem0, htied⟩ := resolveWinners_spec w ws mnf
    have hcnt : r0.tiedPlayers = scores.countP (fun s => s.correct == M) := by
      rw [htied, ← hWc]
      exact hlenf
    refine ⟨r0, ?_, ?_, ?_, hcnt, ?_⟩
    · rw [hr, hWc, hres]
    · exact (hmemf r0.winner (hWc ▸ hmem0)).1
    · exact (hmemf r0.winner (hWc ▸ hmem0)).2
    · omega

/-- Witness for the amended claim C2 theorem at the exact-tie
example. -/
theorem determineWeeklyWinner_tie_single_winner_witness :
    ∃ r, determineWeeklyWinner [exScoreA, exScoreB] (some exMnf) = some r ∧
      r.winner ∈ [exScoreA, exScoreB] ∧ r.winner.correct = 10 ∧
      r.tiedPlayers =
        ([exScoreA, exScoreB] : List WeeklyScore).countP (fun s => s.correct == 10) ∧
      2 ≤ r.tiedPlayers :=
  determineWeeklyWinner_tie_single_winner [exScoreA, exScoreB] (some exMnf) 10
    (by decide) (by decide)

/-- Claim C3 counterexample.  C has no tiebreaker guess (sentinel
distance 999); D guessed 2000, at distance 1955 from the completed
Monday night total 45.  The sentinel is not maximally bad: C, who
skipped the tiebreaker, is returned as winner ahead of D, who
submitted a numeric guess. -/
theorem weeklyWinner_sentinel_cex :
    determineWeeklyWinner [exScoreC, exScoreD] (some exMnf) =
        some ⟨exScoreC, true, some 45, 2⟩ ∧
      exScoreC.tiebreaker = none ∧
      exScoreD.tiebreaker = some 2000 ∧
      exScoreD.correct = exScoreC.correct := by
  refine ⟨by decide, by decide, by decide, by decide⟩

/-- Claim C3, amended.  A missing tiebreaker guess gets the fixed
sentinel distance 999 (not a maximally bad one) and never causes a
crash: whenever some tied candidate submitted a non-zero numeric
guess within distance 999 of the completed tiebreaker total, the
returned winner is a player with a non-zero numeric guess at distance
below 999 — in particular not a candidate whose guess is missing.  A
guess further than 999 from the total loses to the sentinel, and a
guess of exactly 0 is falsy and treated as missing. -/
theorem determineWeeklyWinner_sentinel_bound (scores : List WeeklyScore) (g : Game)
    (M : Nat) (a b : WeeklyScore) (gb as hs : Int)
    (h1 : ∀ s ∈ scores, s.correct ≤ M)
    (haMem : a ∈ scores) (haM : a.correct = M) (haTb : a.tiebreaker = none)
    (hbMem : b ∈ scores) (hbM : b.correct = M) (hbTb : b.tiebreaker = some gb)
    (hb0 : gb ≠ 0) (hg1 : g.completed = true) (hg2 : g.awayScore = some as)
    (hg3 : g.homeScore = some hs) (hdist : |gb - (as + hs)| < 999) :
    ∃ r, determineWeeklyWinner scores (some g) = some r ∧ r.isTiebreaker = true ∧
      r.mnfTotal = some (as + hs) ∧ tbDiff (as + hs) r.winner < 999 ∧
      (∃ tw, r.winner.tiebreaker = some tw ∧ tw ≠ 0) ∧ r.winner ≠ a := by
  have hane : a ≠ b := by
    intro hEq
    rw [hEq] at haTb
    rw [haTb] at hbTb
    exact Option.noConfusion hbTb
  have hcount : 0 < scores.countP (fun s => s.correct == M) :=
    List.countP_pos_iff.mpr ⟨a, haMem, by simp [haM]⟩
  obtain ⟨t, rr, hsort, htM, hlenf, hmemf, hmemb⟩ :=
    winners_setup scores M h1 hcount
  have haW := hmemb a haMem haM
  have hbW := hmemb b hbMem hbM
  have hlen2 : 2 ≤ ((t :: rr).filter (fun p => p.correct == t.correct)).length :=
    two_le_length_of_ne haW hbW hane
  have htp : calculateTotalPoints g = some (as + hs) := by
    simp [calculateTotalPoints, hg1, hg2, hg3]
  have hr : determineWeeklyWinner scores (some g) =
      resolveWinners ((t :: rr).filter (fun p => p.correct == t.correct)) (some g) := by
    simp only [determineWeeklyWinner, hsort]
  cases hWc : (t :: rr).filter (fun p => p.correct == t.correct) with
  | nil =>
    exfalso
    rw [hWc] at hlen2
    simp at hlen2
  | cons w ws =>
    have hlen2w : (w :: ws).length > 1 := by
      rw [hWc] at hlen2
      omega
    have hws : ¬ ws = [] := by
      intro hEq
      rw [hEq] at hlen2w
      simp at hlen2w
    cases hsrt2 : jsSortKey (tbDiff (as + hs)) (w :: ws) with
    | nil =>
      exfalso
      have hlen0 := (jsSortKey_perm (tbDiff (as + hs)) (w :: ws)).length_eq
      rw [hsrt2] at hlen0
      simp at hlen0
    | cons w2 rest =>
      have hw2min := jsSortKey_head_le hsrt2 b (hWc ▸ hbW)
      have hdb : tbDiff (as + hs) b = |gb - (as + hs)| := by
        simp [tbDiff, hbTb, hb0]
      have hw2lt : tbDiff (as + hs) w2 < 999 := by
        rw [hdb] at hw2min
        exact lt_of_le_of_lt hw2min hdist
      have hw2tb : ∃ tw, w2.tiebreaker = some tw ∧ tw ≠ 0 := by
        cases hwtb : w2.tiebreaker with
        | none =>
          exfalso
          simp [tbDiff, hwtb] at hw2lt
        | some tw =>
          by_cases htw : tw = 0
          · exfalso
            simp [tbDiff, hwtb, htw] at hw2lt
          · exact ⟨tw, rfl, htw⟩
      have hwa : w2 ≠ a := by
        intro hEq
        obtain ⟨tw, htw, _⟩ := hw2tb
        rw [hEq, haTb] at htw
        exact Option.noConfusion htw
      refine ⟨⟨w2, true, some (as + hs), (w :: ws).length⟩, ?_, rfl, rfl, hw2lt,
        hw2tb, hwa⟩
      rw [hr, hWc]
      simp [resolveWinners, hlen2w, hws, hg1, htp, hsrt2]

/-- Witness for the amended claim C3 theorem: C (no guess) against B
(guess 40, distance 5 from 45); the winner is B. -/
theorem determineWeeklyWinner_sentinel_bound_witness :
    ∃ r, determineWeeklyWinner [exScoreC, exScoreB] (some exMnf) = some r ∧
      r.isTiebreaker = true ∧ r.mnfTotal = some (20 + 25) ∧
      tbDiff (20 + 25) r.winner < 999 ∧
      (∃ tw, r.winner.tiebreaker = some tw ∧ tw ≠ 0) ∧ r.winner ≠ exScoreC :=
  determineWeeklyWinner_sentinel_bound [exScoreC, exScoreB] exMnf 10
    exScoreC exScoreB 40 20 25 (by decide) (by decide) (by decide) (by decide)
    (by decide) (by decide) (by decide) (by decide) (by decide) rfl rfl (by decide)

theorem lbKey_le_spec (a b : SeasonStat) (hab : keyLE lbKey a b) :
    b.weeklyWins < a.weeklyWins ∨
      (a.weeklyWins = b.weeklyWins ∧ b.averageAccuracy ≤ a.averageAccuracy) := by
  have h := (Prod.Lex.le_iff (-(a.weeklyWins : Int), -a.averageAccuracy)
    (-(b.weeklyWins : Int), -b.averageAccuracy)).mp hab
  rcases h with h | ⟨h1, h2⟩
  · left
    have hlt : (b.weeklyWins : Int) < (a.weeklyWins : Int) := by
      simpa using neg_lt_neg_iff.mp h
    exact_mod_cast hlt
  · right
    constructor
    · have heq : (a.weeklyWins : Int) = (b.weeklyWins : Int) := neg_inj.mp h1
      exact_mod_cast heq
    · simpa using neg_le_neg_iff.mp h2

/-- Claim C10.  `generateLeaderboard` orders the stat records by
weekly wins descending, then average accuracy descending, and the
sort is stable: the leaderboard entries are a permutation of the
input in sorted order, and for every key value the entries carrying
that key appear in exactly their input order.  Two records share a
key exactly when they agree on both `weeklyWins` and
`averageAccuracy`. -/
theorem generateLeaderboard_order (stats : List SeasonStat) :
    ((generateLeaderboard stats).map (fun r => r.stat) = jsSortKey lbKey stats) ∧
      (jsSortKey lbKey stats).Perm stats ∧
      (jsSortKey lbKey stats).Sorted (fun a b =>
        b.weeklyWins < a.weeklyWins ∨
          (a.weeklyWins = b.weeklyWins ∧ b.averageAccuracy ≤ a.averageAccuracy)) ∧
      (∀ c, (jsSortKey lbKey stats).filter (fun s => decide (lbKey s = c)) =
        stats.filter (fun s => decide (lbKey s = c))) ∧
      (∀ a b : SeasonStat, lbKey a = lbKey b ↔
        (a.weeklyWins = b.weeklyWins ∧ a.averageAccuracy = b.averageAccuracy)) := by
  refine ⟨?_, jsSortKey_perm lbKey stats, ?_, ?_, ?_⟩
  · rw [generateLeaderboard, List.map_map]
    exact List.enum_map_snd _
  · exact (jsSortKey_sorted lbKey stats).imp (fun hab => lbKey_le_spec _ _ hab)
  · intro c
    exact jsSortKey_filter_stable lbKey c stats
  · intro a b
    constructor
    · intro h
      have hp := Prod.ext_iff.mp (toLex_inj.mp h)
      refine ⟨?_, ?_⟩
      · have := neg_inj.mp hp.1
        exact_mod_cast this
      · exact neg_inj.mp hp.2
    · intro h
      simp only [lbKey, h.1, h.2]
